import Mathlib

/-!
Verification of the ausmash-python core algorithms: the placement
normalizer (`ausmash/models/result.py`, `ausmash/models/event.py`), the
cache key and rate-limited client (`ausmash/api.py`), the lazy
partial-resource proxy (`ausmash/resource.py`), and the bracket topology
resolver (`ausmash/models/tournament.py`).

Each definition is a shallow embedding of the corresponding Python
function; machine-level details that no claim depends on (percent
encoding of URLs, wall-clock sleeping, float rounding inside a value that
is subsequently clamped) are noted at the definition that abstracts them.
-/

namespace Ausmash

/-! ## Placement normalizer (`ausmash/models/event.py`, `ausmash/models/result.py`) -/

/-- `normalized_elimination_bracket_sizes = tuple(2 ** n for n in range(1, 16))`
from `ausmash/models/event.py`. -/
def normalized_elimination_bracket_sizes : List Nat :=
  (List.range 15).map (fun n => 2 ^ (n + 1))

/-- `possible_placings = (1, 2, *chain.from_iterable((n + 1, int(n * 1.5) + 1) for n in sizes))`
from `ausmash/models/event.py`.  For `n` a power of two with `2 ≤ n ≤ 2^15`,
`n * 1.5` is exact in floating point and `int(n * 1.5) = 3 * n / 2` exactly,
so the float arithmetic of the source is represented by exact integer
arithmetic. -/
def possible_placings : List Int :=
  1 :: 2 :: (normalized_elimination_bracket_sizes.flatMap
    (fun n => [(n : Int) + 1, (n : Int) * 3 / 2 + 1]))

/-- Models Python's `bisect.bisect_right(a, x)` (standard library) applied to a
sorted list: the insertion point to the right of `x`, which for a sorted list
equals the number of elements that are `≤ x`. -/
def bisect_right (a : List Int) (x : Int) : Nat :=
  a.countP (fun y => decide (y ≤ x))

/-- `rounds_from_victory(result) = bisect_right(possible_placings, result) - 1`
from `ausmash/models/result.py`. -/
def rounds_from_victory (result : Int) : Int :=
  (bisect_right possible_placings result : Int) - 1

/-- Truncation toward zero of a rational number, modeling Python's `int()`
applied to a float. -/
def ratTrunc (q : ℚ) : Int :=
  if 0 ≤ q then ⌊q⌋ else ⌈q⌉

/-- Python list indexing `l[i]`: negative indices count from the end,
`none` models an `IndexError`. -/
def pyListGet (l : List Int) (i : Int) : Option Int :=
  if 0 ≤ i then l.get? i.toNat
  else if 0 ≤ (l.length : Int) + i then l.get? ((l.length : Int) + i).toNat
  else none

/-- `Result.get_pools_drown_placing` from `ausmash/models/result.py`.
`none` models a raised exception (`ZeroDivisionError` from `//` or `/`, or
`IndexError` from the final subscript).  Python's `//` on ints is floor
division (`Int.fdiv`); the float division and multiplication feeding `int()`
are modeled as exact rational arithmetic followed by truncation toward zero
(the result of this function is insensitive to the rounding of that value,
because the index is clamped into the bounds of `drown_placings` before the
subscript). -/
def get_pools_drown_placing (pool_result people_who_made_it_out highest_drown_placing
    number_of_pools lowest_placing number_of_people_in_this_pools_round : Int) : Option Int :=
  if number_of_pools = 0 then none
  else
    let placing_to_not_drown := Int.fdiv people_who_made_it_out number_of_pools
    let min_people_in_every_pool := Int.fdiv number_of_people_in_this_pools_round number_of_pools
    let drown_placings := possible_placings.filter
      (fun p => decide (highest_drown_placing < p) && decide (p ≤ lowest_placing))
    if min_people_in_every_pool - placing_to_not_drown = 0 then none
    else
      let index0 : Int := ratTrunc
        ((((pool_result : ℚ) - ((placing_to_not_drown : ℚ) + 1)) /
            ((min_people_in_every_pool : ℚ) - (placing_to_not_drown : ℚ))) *
          (drown_placings.length : ℚ))
      let index1 : Int := max index0 0
      let index2 : Int :=
        if (drown_placings.length : Int) ≤ index1 then (drown_placings.length : Int) - 1
        else index1
      pyListGet drown_placings index2

/-! ## Cache key and rate-limited client (`ausmash/api.py`) -/

/-- The parts of a prepared request URL that
`_FileCacheWithDirectories.create_key` inspects (via `pydantic_core.Url`):
the host, the path (with its leading slash), and the query string.  An
absent component is represented by the empty string. -/
structure UrlParts where
  host : String
  path : String
  query : String

/-- Python's `str.removeprefix('/')`: drop one leading `/` if present. -/
def removeLeadingSlash (s : String) : String :=
  match s.data with
  | '/' :: rest => String.mk rest
  | _ => s

/-- `_FileCacheWithDirectories.create_key` from `ausmash/api.py`:
the path with one leading `/` removed (falling back to the host, then to
`'wat'`), with `/` and the query string appended when a query is present.
The `not request.url` guard is the `path = host = query = ""` case here. -/
def create_key (u : UrlParts) : String :=
  let key :=
    if u.path ≠ "" then removeLeadingSlash u.path
    else if u.host ≠ "" then u.host
    else "wat"
  if u.query ≠ "" then key ++ "/" ++ u.query else key

/-- Query parameters exactly as `call_api` passes them to the session:
an ordered sequence of key/value pairs, or `none`. -/
abbrev Params := Option (List (String × String))

/-- The query string requests prepares from `params`: the pairs joined as
`k=v` with `&`, in the order given (requests does not sort them).
Percent-escaping is omitted; it is the identity on the
reserved-character-free strings the claims are about, and it is injective
and order-preserving in general. -/
def urlencode (ps : List (String × String)) : String :=
  String.intercalate "&" (ps.map (fun kv => kv.1 ++ "=" ++ kv.2))

/-- The URL `call_api` prepares for a relative path `path`: the configured
endpoint host, `/` plus the path, and the encoded query string. -/
def prepared_url (host path : String) (params : Params) : UrlParts :=
  ⟨host, "/" ++ path,
    match params with
    | none => ""
    | some ps => urlencode ps⟩

/-- The cache key of a request: `create_key` applied to the prepared URL. -/
def cacheKey (host path : String) (params : Params) : String :=
  create_key (prepared_url host path params)

/-- Response bodies as byte sequences. -/
abbrev Bytes := List Nat

/-- One stored disk-cache entry.  Only 200-responses are stored
(requests-cache's default `allowable_codes`), so no status is recorded. -/
structure CacheEntry where
  content : Bytes
  expiresAt : Nat
deriving DecidableEq

/-- `RATE_LIMIT_SECOND` from `ausmash/api.py`. -/
def RATE_LIMIT_SECOND : Nat := 200

/-- `RATE_LIMIT_MINUTE` from `ausmash/api.py`. -/
def RATE_LIMIT_MINUTE : Nat := 5000

/-- `RATE_LIMIT_HOUR` from `ausmash/api.py`. -/
def RATE_LIMIT_HOUR : Nat := 300000

/-- The configuration surrounding `_call_api`: the endpoint host and
`sleep_on_rate_limit` from the settings, the session's cache expiry in
seconds, and the network transport (status code and body per request),
modeled as a deterministic function. -/
structure ClientConfig where
  host : String
  sleepOnRateLimit : Bool
  cacheExpiry : Nat
  network : String → Params → Nat × Bytes

/-- The mutable state shared by all calls: the `functools.cache` memo on
`_call_api`, the on-disk response cache, `_SessionSingleton`'s three rolling
counters and `last_sent` timestamp, and (for the theorems) a count of
requests that actually reached the network. -/
structure SessionState where
  funcCache : List ((String × Params) × Bytes)
  httpCache : List (String × CacheEntry)
  requests_per_second : Nat
  requests_per_minute : Nat
  requests_per_hour : Nat
  last_sent : Option Nat
  outbound : Nat
deriving DecidableEq

/-- The errors `_call_api` can raise: `RateLimitError(max_requests,
time_period)`, `NotFoundError`, or `requests`' `HTTPError` from
`raise_for_status`. -/
inductive ApiError where
  | rateLimit (max_requests : Nat) (time_period : String)
  | notFound
  | httpError (status : Nat)
deriving DecidableEq

/-- Results of fallible calls can be compared for equality. -/
instance {ε α : Type} [DecidableEq ε] [DecidableEq α] : DecidableEq (Except ε α) := fun a b =>
  match a, b with
  | .ok x, .ok y =>
    if h : x = y then .isTrue (by rw [h]) else .isFalse (fun hc => h (Except.ok.inj hc))
  | .error x, .error y =>
    if h : x = y then .isTrue (by rw [h]) else .isFalse (fun hc => h (Except.error.inj hc))
  | .ok _, .error _ => .isFalse (fun hc => Except.noConfusion hc)
  | .error _, .ok _ => .isFalse (fun hc => Except.noConfusion hc)

/-- First-match association-list lookup (dictionary lookup). -/
def assocLookup {α β : Type} [DecidableEq α] (l : List (α × β)) (k : α) : Option β :=
  (l.find? (fun kv => decide (kv.1 = k))).map (·.2)

/-- The live (non-expired) cache entry for a key, if any. -/
def liveEntry (now : Nat) (cache : List (String × CacheEntry)) (key : String) :
    Option CacheEntry :=
  match assocLookup cache key with
  | some e => if now < e.expiresAt then some e else none
  | none => none

/-- The per-window reset condition inside `_SessionSingleton.set_last_sent`:
`last_sent is None or (datetime.now() - last_sent) >= window`
(timestamps and windows in seconds). -/
def windowElapsed (last_sent : Option Nat) (now window : Nat) : Bool :=
  match last_sent with
  | none => true
  | some t => window ≤ now - t

/-- The non-cached branch of `_call_api` from `ausmash/api.py`: the network
request goes out (and `sesh.get` stores a 200-response on disk) before
`set_last_sent` resets elapsed windows and the three counters are
incremented in turn, each compared against its ceiling — raising under the
fail-fast policy, merely blocking under the sleep policy (the wall-clock
effect of `sleep` is outside this model).  Then the 404 check and
`raise_for_status` run on the response. -/
def callApiNet (cfg : ClientConfig) (now : Nat) (st : SessionState)
    (path : String) (params : Params) : Except ApiError Bytes × SessionState :=
  let sc := cfg.network path params
  let status := sc.1
  let content := sc.2
  let st1 : SessionState := { st with
    outbound := st.outbound + 1
    httpCache :=
      if status = 200 then
        (cacheKey cfg.host path params, ⟨content, now + cfg.cacheExpiry⟩) :: st.httpCache
      else st.httpCache }
  let st2 : SessionState := { st1 with
    requests_per_second := if windowElapsed st.last_sent now 1 then 0 else st.requests_per_second
    requests_per_minute := if windowElapsed st.last_sent now 60 then 0 else st.requests_per_minute
    requests_per_hour := if windowElapsed st.last_sent now 3600 then 0 else st.requests_per_hour
    last_sent := some now }
  let st3 : SessionState := { st2 with requests_per_second := st2.requests_per_second + 1 }
  if st3.requests_per_second = RATE_LIMIT_SECOND ∧ cfg.sleepOnRateLimit = false then
    (.error (.rateLimit RATE_LIMIT_SECOND "second"), st3)
  else
    let st4 : SessionState := { st3 with requests_per_minute := st3.requests_per_minute + 1 }
    if st4.requests_per_minute = RATE_LIMIT_MINUTE ∧ cfg.sleepOnRateLimit = false then
      (.error (.rateLimit RATE_LIMIT_MINUTE "minute"), st4)
    else
      let st5 : SessionState := { st4 with requests_per_hour := st4.requests_per_hour + 1 }
      if st5.requests_per_hour = RATE_LIMIT_HOUR ∧ cfg.sleepOnRateLimit = false then
        (.error (.rateLimit RATE_LIMIT_HOUR "hour"), st5)
      else
        if status = 404 then (.error .notFound, st5)
        else if 400 ≤ status then (.error (.httpError status), st5)
        else (.ok content, st5)

/-- `call_api`/`_call_api` from `ausmash/api.py` as one state transition.
The `functools.cache` memo on `_call_api` is consulted first (it records
only calls that returned normally); on a miss, `sesh.get` either serves a
live disk-cache entry — `response.from_cache` is true, so the whole
rate-budget block is skipped — or goes to the network via `callApiNet`.
`now` is the wall-clock time of the call in seconds. -/
def callApi (cfg : ClientConfig) (now : Nat) (st : SessionState)
    (path : String) (params : Params) : Except ApiError Bytes × SessionState :=
  match assocLookup st.funcCache (path, params) with
  | some content => (.ok content, st)
  | none =>
    match liveEntry now st.httpCache (cacheKey cfg.host path params) with
    | some entry =>
      (.ok entry.content,
        { st with funcCache := ((path, params), entry.content) :: st.funcCache })
    | none =>
      let r := callApiNet cfg now st path params
      match r.1 with
      | .ok content =>
        (.ok content, { r.2 with funcCache := ((path, params), content) :: r.2.funcCache })
      | .error e => (.error e, r.2)

/-! ## Lazy partial-resource proxy (`ausmash/resource.py`) -/

/-- JSON field values, as far as the proxy and the equality logic inspect
them. -/
inductive JVal where
  | num (n : Int)
  | str (s : String)
  | bool (b : Bool)
  | null
deriving DecidableEq

/-- A wrapped JSON object (`DictWrapper._data`). -/
abbrev FieldMap := List (String × JVal)

/-- Python truthiness of a field value, as used by `if id_:` and
`if complete:`. -/
def JVal.truthy : JVal → Bool
  | .num n => decide (n ≠ 0)
  | .str s => decide (s ≠ "")
  | .bool b => b
  | .null => false

/-- Python f-string formatting of a field value, as used by
`f'{self.base_url}/{id_}'`. -/
def JVal.fstr : JVal → String
  | .num n => toString n
  | .str s => s
  | .bool b => if b then "True" else "False"
  | .null => "None"

/-- `dict[key] = value`: replace the value at an existing key (keeping its
position), else append. -/
def fmSet (m : FieldMap) (k : String) (v : JVal) : FieldMap :=
  match m with
  | [] => [(k, v)]
  | (k0, v0) :: rest => if k0 = k then (k0, v) :: rest else (k0, v0) :: fmSet rest k v

/-- A `Resource` instance: the wrapped field map `_data`, the `api_link`
captured at construction, and the `functools.cached_property` slot for
`_complete` (holding the resolved complete field map, if any). -/
structure ResourceState where
  data : FieldMap
  apiLink : Option String
  completeCache : Option FieldMap
deriving DecidableEq

/-- `Resource.__init__` from a JSON fragment: wrap the dict and record
`dict_or_id.get('APILink')` (`APILink` fields are strings in the API). -/
def mkResource (d : FieldMap) : ResourceState :=
  { data := d
    apiLink :=
      match assocLookup d "APILink" with
      | some (.str s) => some s
      | _ => none
    completeCache := none }

/-- `Resource.__init__` from a bare integer ID. -/
def mkResourceFromId (id : Int) : ResourceState :=
  { data := [("ID", .num id)], apiLink := none, completeCache := none }

/-- The `else` branch of `Resource._complete`'s target selection:
`{base_url}/{ID}` when the instance has a truthy `ID` field. -/
def idTarget (baseUrl : String) (st : ResourceState) : Option String :=
  match assocLookup st.data "ID" with
  | some v => if v.truthy then some (baseUrl ++ "/" ++ v.fstr) else none
  | none => none

/-- The URL `Resource._complete` fetches: the stored `api_link` when truthy,
else `{base_url}/{ID}`, else `none` (meaning `_complete` raises
`NotImplementedError`). -/
def resolveTarget (baseUrl : String) (st : ResourceState) : Option String :=
  match st.apiLink with
  | some l => if l = "" then idTarget baseUrl st else some l
  | none => idTarget baseUrl st

/-- `Resource.__getitem__` (together with `DictWrapper.__getitem__` and
`Resource._complete`) as a state transition.  `fetch` models
`call_api_json`: `none` is a raised `NotFoundError`, `some m` a returned
JSON object (possibly empty, which `_complete` treats as falsy).  The
returned `Nat` counts the network fetches this access performed; `.error ()`
is the `KeyError` surfaced to the caller.  `functools.cached_property`
stores `_complete` only when the property body returns normally, so failed
resolutions are not memoized; on success the complete map (with its
`is_complete` marker) is cached for the lifetime of the instance. -/
def getItem (baseUrl : String) (fetch : String → Option FieldMap)
    (st : ResourceState) (name : String) :
    Except Unit JVal × ResourceState × Nat :=
  match assocLookup st.data name with
  | some v => (.ok v, st, 0)
  | none =>
    match st.completeCache with
    | some cmap =>
      match assocLookup cmap name with
      | some v => (.ok v, st, 0)
      | none => (.error (), st, 0)
    | none =>
      if (assocLookup st.data "is_complete").elim false JVal.truthy then
        (.error (), st, 0)
      else
        match resolveTarget baseUrl st with
        | none => (.error (), st, 0)
        | some u =>
          match fetch u with
          | none => (.error (), st, 1)
          | some m =>
            if m.isEmpty then (.error (), st, 1)
            else
              let cmap := fmSet m "is_complete" (.bool true)
              match assocLookup cmap name with
              | some v => (.ok v, { st with completeCache := some cmap }, 1)
              | none => (.error (), { st with completeCache := some cmap }, 1)

/-! ## Resource equality and hashing (`ausmash/resource.py`, `ausmash/models/game.py`) -/

/-- The `Resource` subclasses relevant to equality.  Python's
`isinstance(o, T)` walks the class hierarchy, so each class is modeled by
its method resolution order.  `CombinedCharacter` (which overrides
`__eq__`, `__hash__` and `name` to compare constructor state — a group
name and a character collection — held outside the wrapped field map) is
outside this model; every theorem about equality excludes it explicitly. -/
inductive RClass where
  | resource
  | tournament
  | player
  | pocketPlayer
  | characterPlayer
  | character
  | game
  | region
  | channel
  | ranking
deriving DecidableEq

/-- Each class's MRO up to `Resource`.  Subclass relationships from the
source: `PocketPlayer(Player)`, `CharacterPlayer(Player)`; the remaining
classes subclass `Resource` directly. -/
def RClass.mro : RClass → List RClass
  | .resource => [.resource]
  | .tournament => [.tournament, .resource]
  | .player => [.player, .resource]
  | .pocketPlayer => [.pocketPlayer, .player, .resource]
  | .characterPlayer => [.characterPlayer, .player, .resource]
  | .character => [.character, .resource]
  | .game => [.game, .resource]
  | .region => [.region, .resource]
  | .channel => [.channel, .resource]
  | .ranking => [.ranking, .resource]

/-- `isinstance(o, target)` for an object whose class is `c`. -/
def isInstanceOf (c target : RClass) : Bool :=
  c.mro.contains target

/-- `c` is a proper subclass of `d`. -/
def properSubclass (c d : RClass) : Bool :=
  decide (c ≠ d) && isInstanceOf c d

/-- An instance of a `Resource` subclass, as far as `__eq__`/`__hash__`
inspect it: its concrete class and its wrapped field map. -/
structure PyResource where
  cls : RClass
  data : FieldMap
deriving DecidableEq

/-- CPython's `hash` on an `int` (`IntID` is a plain `int`): the value
reduced modulo the Mersenne prime `2^61 - 1`, preserving sign, with `-1`
mapped to `-2`. -/
def pyHashInt (n : Int) : Int :=
  let M : Int := 2 ^ 61 - 1
  let h : Int := if 0 ≤ n then n % M else -((-n) % M)
  if h = -1 then -2 else h

/-- The unbound method `Resource.__eq__(self, other)`: `False` unless
`isinstance(other, type(self))`, else `self.id == other.id` (`IntID` is a
plain `int`, so the comparison is value equality of the `ID` fields).
`none` models the `KeyError`/resolution path taken when an `ID` field is
missing.  Inherited by every modeled subclass except `Game`. -/
def resourceEq (a b : PyResource) : Option Bool :=
  if isInstanceOf b.cls a.cls then
    match assocLookup a.data "ID", assocLookup b.data "ID" with
    | some x, some y => some (decide (x = y))
    | _, _ => none
  else some false

/-- The unbound method `Game.__eq__(self, other)` from
`ausmash/models/game.py`: `False` unless `isinstance(other, Game)`, else
`self.short_name == other.short_name` (the `Short` fields); `none` models
the `KeyError`/resolution path when a `Short` field is missing. -/
def gameEq (a b : PyResource) : Option Bool :=
  if isInstanceOf b.cls .game then
    match assocLookup a.data "Short", assocLookup b.data "Short" with
    | some x, some y => some (decide (x = y))
    | _, _ => none
  else some false

/-- The `__eq__` method the method resolution order selects for `self`:
`Game.__eq__` for `Game`, the inherited `Resource.__eq__` for every other
modeled class. -/
def dunderEq (a b : PyResource) : Option Bool :=
  if a.cls = .game then gameEq a b else resourceEq a b

/-- CPython's `==` between two instances (`do_richcompare`): when the right
operand's type is a proper subclass of the left operand's type, the right
operand's (reflected) `__eq__` is tried first, otherwise the left
operand's.  The methods modeled here always return a `bool`, never
`NotImplemented`, so the first method tried settles the comparison and no
fallback is needed. -/
def pyEq (a b : PyResource) : Option Bool :=
  if properSubclass b.cls a.cls then dunderEq b a else dunderEq a b

/-- `Resource.__hash__` = `hash(self.id)`, inherited by every modeled
subclass except `Game` (which hashes its short name); `none` models the
`KeyError` when no integer `ID` field is present. -/
def resourceHash (a : PyResource) : Option Int :=
  match assocLookup a.data "ID" with
  | some (.num n) => some (pyHashInt n)
  | _ => none

/-! ## Bracket topology resolver (`ausmash/models/tournament.py`) -/

/-- An event of a tournament, as far as `Tournament.__other_phase_for_event`
inspects it: the ID (`Event.__eq__` and `__hash__` use only the ID), the
game (`Game.__eq__` compares short names), the event type (a string-valued
enum), and the two flags `is_side_bracket` / `is_redemption_bracket`
(derived in the source from the event name). -/
structure Event where
  id : Nat
  game : String
  etype : String
  is_side_bracket : Bool
  is_redemption_bracket : Bool
deriving DecidableEq

/-- Inserting one binding into a Python dict whose keys are `Event`s
(key equality is `Event.__eq__`, i.e. by ID): an existing key keeps its
position and identity and only its value is replaced; a new key is
appended. -/
def dictInsert (acc : List (Event × Nat)) (k : Event) (v : Nat) : List (Event × Nat) :=
  match acc with
  | [] => [(k, v)]
  | (k0, v0) :: rest =>
    if k0.id = k.id then (k0, v) :: rest else (k0, v0) :: dictInsert rest k v

/-- Builds `{e: i for i, e in enumerate(events)}` starting from `acc` at
index `i`. -/
def eventIndicesAux (acc : List (Event × Nat)) (events : List Event) (i : Nat) :
    List (Event × Nat) :=
  match events with
  | [] => acc
  | e :: rest => eventIndicesAux (dictInsert acc e i) rest (i + 1)

/-- `event_indices = {e: i for i, e in enumerate(self.events)}` from
`Tournament.__other_phase_for_event`. -/
def eventIndices (events : List Event) : List (Event × Nat) :=
  eventIndicesAux [] events 0

/-- `event_indices.get(e)`: dict lookup, key equality by ID. -/
def dictGet (l : List (Event × Nat)) (e : Event) : Option Nat :=
  (l.find? (fun kv => decide (kv.1.id = e.id))).map (·.2)

/-- `all_event_players_are_in_this_event(event)` — the successor-search
test: every player with a result in the candidate also appears among `e`'s
result players.  (`result_players` is a Python set of names; membership in
the set coincides with membership in the name list.) -/
def all_event_players_are_in_this_event (results_for : Nat → List String)
    (result_players : List String) (cand : Event) : Bool :=
  (results_for cand.id).all (fun p => result_players.contains p)

/-- `all_players_are_in_event(event)` — the predecessor-search test: the
candidate has at least one result, and every one of `e`'s result players
appears among the candidate's. -/
def all_players_are_in_event (results_for : Nat → List String)
    (result_players : List String) (cand : Event) : Bool :=
  let player_names := results_for cand.id
  !player_names.isEmpty && result_players.all (fun p => player_names.contains p)

/-- The list-comprehension filter of `__other_phase_for_event`, applied to
one `(event, index)` item of `event_indices`. -/
def phase_candidate (results_for : Nat → List String) (e : Event) (index : Nat)
    (previous : Bool) (ei : Event × Nat) : Bool :=
  (if previous then decide (ei.2 < index) else decide (index < ei.2)) &&
  decide (e.game = ei.1.game) && decide (e.etype = ei.1.etype) &&
  decide (e.is_side_bracket = ei.1.is_side_bracket) &&
  decide (e.is_redemption_bracket = ei.1.is_redemption_bracket) &&
  (if previous then all_players_are_in_event results_for (results_for e.id) ei.1
   else all_event_players_are_in_this_event results_for (results_for e.id) ei.1)

/-- Python's `min(l, key=operator.itemgetter(1))`: the first element with
minimal second component (`min` keeps the first of equal keys). -/
def pyMinBySnd (l : List (Event × Nat)) : Option (Event × Nat) :=
  l.foldl (fun acc x =>
    match acc with
    | none => some x
    | some b => if x.2 < b.2 then some x else some b) none

/-- Python's `max(l, key=operator.itemgetter(1))`: the first element with
maximal second component. -/
def pyMaxBySnd (l : List (Event × Nat)) : Option (Event × Nat) :=
  l.foldl (fun acc x =>
    match acc with
    | none => some x
    | some b => if b.2 < x.2 then some x else some b) none

/-- `Tournament.__other_phase_for_event` from `ausmash/models/tournament.py`.
`results_for` models `Result.results_for_event` by event ID, listing the
`player_name` of each recorded result.  `.error` models the `ValueError`
raised for an event that does not belong to the tournament.  The
per-`(event, direction)` memo cache only avoids recomputation of a pure
value and is not modeled. -/
def other_phase_for_event (events : List Event) (results_for : Nat → List String)
    (e : Event) (previous : Bool) : Except String (Option Event) :=
  let event_indices := eventIndices events
  match dictGet event_indices e with
  | none => .error "does not belong to this tournament"
  | some index =>
    if (results_for e.id).isEmpty then .ok none
    else
      let potential := event_indices.filter (phase_candidate results_for e index previous)
      if potential.isEmpty then .ok none
      else if previous then .ok ((pyMaxBySnd potential).map (·.1))
      else .ok ((pyMinBySnd potential).map (·.1))

/-- `Tournament.next_phase_for_event`. -/
def next_phase_for_event (events : List Event) (results_for : Nat → List String)
    (e : Event) : Except String (Option Event) :=
  other_phase_for_event events results_for e false

/-- `Tournament.previous_phase_for_event`. -/
def previous_phase_for_event (events : List Event) (results_for : Nat → List String)
    (e : Event) : Except String (Option Event) :=
  other_phase_for_event events results_for e true

/-- `Tournament.start_phase_for_event`, which recurses on
`previous_phase_for_event` until it returns `None`.  The recursion is
bounded by `fuel`; `none` covers the propagated `ValueError` and fuel
exhaustion (the walked index strictly decreases, so fuel above the number
of events always suffices). -/
def start_phase_for_event_aux (events : List Event) (results_for : Nat → List String) :
    Nat → Event → Option Event
  | 0, _ => none
  | fuel + 1, e =>
    match previous_phase_for_event events results_for e with
    | .error _ => none
    | .ok none => some e
    | .ok (some prev) => start_phase_for_event_aux events results_for fuel prev

/-- `Tournament.start_phase_for_event` with sufficient fuel. -/
def start_phase_for_event (events : List Event) (results_for : Nat → List String)
    (e : Event) : Option Event :=
  start_phase_for_event_aux events results_for (events.length + 1) e

/-- `Tournament.final_phase_for_event`, recursing on
`next_phase_for_event`. -/
def final_phase_for_event_aux (events : List Event) (results_for : Nat → List String) :
    Nat → Event → Option Event
  | 0, _ => none
  | fuel + 1, e =>
    match next_phase_for_event events results_for e with
    | .error _ => none
    | .ok none => some e
    | .ok (some nxt) => final_phase_for_event_aux events results_for fuel nxt

/-- `Tournament.final_phase_for_event` with sufficient fuel. -/
def final_phase_for_event (events : List Event) (results_for : Nat → List String)
    (e : Event) : Option Event :=
  final_phase_for_event_aux events results_for (events.length + 1) e

/-- The items of `enumerate(events)` from index `i`, as `(event, index)`
pairs; with pairwise-distinct IDs this is exactly `event_indices`. -/
def enumWithIndexFrom (i : Nat) : List Event → List (Event × Nat)
  | [] => []
  | e :: es => (e, i) :: enumWithIndexFrom (i + 1) es

/-! ### Concrete tournaments used by the phase theorems -/

/-- The Pools phase of the three-phase scenario. -/
def poolsEvent : Event := ⟨1, "SSBU", "Singles", false, false⟩

/-- The Top 48 phase of the three-phase scenario. -/
def top48Event : Event := ⟨2, "SSBU", "Singles", false, false⟩

/-- The Top 8 phase of the three-phase scenario. -/
def top8Event : Event := ⟨3, "SSBU", "Singles", false, false⟩

/-- `n` distinct entrant names. -/
def entrantNames (n : Nat) : List String :=
  (List.range n).map (fun k => toString k)

/-- Recorded result players per event of the scenario: Pools has 90 named
entrants, Top 48 the first 48 of those names, Top 8 the first 8. -/
def threePhaseResults : Nat → List String :=
  fun id =>
    if id = 1 then entrantNames 90
    else if id = 2 then entrantNames 48
    else if id = 3 then entrantNames 8
    else []

/-- A two-event tournament for the successor-search counterexample. -/
def eventA : Event := ⟨1, "SSBU", "Singles", false, false⟩

/-- Second event of the two-event tournament; its single result player
also played in `eventA`, but not conversely. -/
def eventB : Event := ⟨2, "SSBU", "Singles", false, false⟩

/-- Results of the two-event tournament: `eventA` has players A and B,
`eventB` only player A. -/
def abResults : Nat → List String :=
  fun id => if id = 1 then ["A", "B"] else if id = 2 then ["A"] else []

end Ausmash

namespace Ausmash

/-! ### Theorems for the placement normalizer claims -/

/-- C3 counterexample: the claim states `rounds_from_victory(1) == 0` and
`rounds_from_victory(2) == 0`, but the code maps placing 2 to 1
(`bisect_right((1, 2, 3, ...), 2) - 1 = 1`). -/
theorem c3_counterexample :
    ¬ (rounds_from_victory 1 = 0 ∧ rounds_from_victory 2 = 0) := by
  decide

/-- C3 (amended): `rounds_from_victory` maps placing 1 to 0 and placing 2
to 1 (winning is zero rounds from victory; losing grand finals is one). -/
theorem c3_amended_rounds_from_victory_at_1_and_2 :
    rounds_from_victory 1 = 0 ∧ rounds_from_victory 2 = 1 := by
  decide

/-- C9: `rounds_from_victory` is monotone non-decreasing on positive inputs,
and the placing ladder it indexes into is strictly increasing. -/
theorem c9_rounds_from_victory_monotone (m n : Int) (_hm : 0 < m) (hmn : m ≤ n) :
    rounds_from_victory m ≤ rounds_from_victory n ∧
      possible_placings.Pairwise (fun a b => a < b) := by
  refine ⟨?_, by decide⟩
  unfold rounds_from_victory bisect_right
  have h : possible_placings.countP (fun y => decide (y ≤ m)) ≤
      possible_placings.countP (fun y => decide (y ≤ n)) := by
    refine List.countP_mono_left ?_
    intro a _ ha
    simp only [decide_eq_true_eq] at ha ⊢
    omega
  omega

/-- Witness for C9 at `m = 3`, `n = 9`. -/
theorem c9_witness :
    (0 : Int) < 3 ∧ (3 : Int) ≤ 9 ∧
      (rounds_from_victory 3 ≤ rounds_from_victory 9 ∧
        possible_placings.Pairwise (fun a b => a < b)) :=
  ⟨by decide, by decide, c9_rounds_from_victory_monotone 3 9 (by decide) (by decide)⟩

/-- C8: whenever some ladder entry lies strictly between
`highest_drown_placing` and `lowest_placing` (inclusive on the right), and
`number_of_people_in_this_pools_round // number_of_pools` exceeds
`people_who_made_it_out // number_of_pools`, `get_pools_drown_placing`
returns an element of the placing ladder that is `> highest_drown_placing`
and `≤ lowest_placing`. -/
theorem c8_drown_placing_in_ladder_slice
    (pr pw hd np lp ne : Int)
    (h1 : ∃ p ∈ possible_placings, hd < p ∧ p ≤ lp)
    (h2 : Int.fdiv pw np < Int.fdiv ne np) :
    ∃ r, get_pools_drown_placing pr pw hd np lp ne = some r ∧
      r ∈ possible_placings ∧ hd < r ∧ r ≤ lp := by
  have hnp : np ≠ 0 := by
    intro h
    rw [h, Int.fdiv_zero, Int.fdiv_zero] at h2
    exact lt_irrefl _ h2
  set dp := possible_placings.filter
    (fun p => decide (hd < p) && decide (p ≤ lp)) with hdp_def
  have hdp_ne : dp ≠ [] := by
    obtain ⟨p, hp_mem, hp1, hp2⟩ := h1
    have : p ∈ dp := by
      rw [hdp_def]
      exact List.mem_filter.mpr ⟨hp_mem, by simp [hp1, hp2]⟩
    intro h
    rw [h] at this
    exact absurd this (List.not_mem_nil p)
  have hlen : 0 < dp.length := List.length_pos.mpr hdp_ne
  have hd_pos : Int.fdiv ne np - Int.fdiv pw np ≠ 0 := by omega
  unfold get_pools_drown_placing
  rw [if_neg hnp, ← hdp_def, if_neg hd_pos]
  set index0 : Int := ratTrunc
    ((((pr : ℚ) - ((Int.fdiv pw np : ℚ) + 1)) /
        ((Int.fdiv ne np : ℚ) - (Int.fdiv pw np : ℚ))) * (dp.length : ℚ)) with hidx0
  set index1 : Int := max index0 0 with hidx1
  set index2 : Int :=
    if (dp.length : Int) ≤ index1 then (dp.length : Int) - 1 else index1 with hidx2
  have h0le : 0 ≤ index2 := by
    rw [hidx2]
    split
    · omega
    · rw [hidx1]; exact le_max_right _ _
  have hlt : index2 < (dp.length : Int) := by
    rw [hidx2]
    split
    · omega
    · omega
  have hltn : index2.toNat < dp.length := by omega
  have hget : pyListGet dp index2 = some (dp.get ⟨index2.toNat, hltn⟩) := by
    unfold pyListGet
    rw [if_pos h0le, List.get?_eq_get hltn]
  refine ⟨dp.get ⟨index2.toNat, hltn⟩, hget, ?_⟩
  have hmem : dp.get ⟨index2.toNat, hltn⟩ ∈ dp := List.get_mem dp _ _
  obtain ⟨hmem_pp, hcond⟩ := List.mem_filter.mp hmem
  simp only [Bool.and_eq_true, decide_eq_true_eq] at hcond
  exact ⟨hmem_pp, hcond.1, hcond.2⟩

/-- Witness for C8 at a pool of 24 entrants split into 4 pools with 8
advancing: a pool placing of 3 yields ladder entry 9. -/
theorem c8_witness :
    (∃ p ∈ possible_placings, (8 : Int) < p ∧ p ≤ 24) ∧
      Int.fdiv 8 4 < Int.fdiv 24 4 ∧
      (∃ r, get_pools_drown_placing 3 8 8 4 24 24 = some r ∧
        r ∈ possible_placings ∧ (8 : Int) < r ∧ r ≤ 24) :=
  ⟨by decide, by decide, c8_drown_placing_in_ladder_slice 3 8 8 4 24 24 (by decide) (by decide)⟩

end Ausmash

namespace Ausmash

/-! ### Theorems for the cache-key claim -/

/-- Helper: a path prepared by `call_api` always starts with `/`, so it is
never empty and `create_key` never falls back to the host. -/
theorem slash_append_ne_empty (p : String) : ("/" ++ p) ≠ "" := by
  intro h
  have h2 := congrArg String.length h
  simp [String.length_append] at h2
  exact absurd h2.1 (by decide)

/-- C2 counterexample: the two parameter mappings `[a=1, b=2]` and
`[b=2, a=1]` are permutations of the same key/value pairs, yet their cache
keys differ (`create_key` keeps the query string in the order the
parameters were passed; it does not sort them). -/
theorem c2_counterexample :
    ([("a", "1"), ("b", "2")] : List (String × String)).Perm [("b", "2"), ("a", "1")] ∧
      cacheKey "api.ausmash.com.au" "pools" (some [("a", "1"), ("b", "2")]) ≠
        cacheKey "api.ausmash.com.au" "pools" (some [("b", "2"), ("a", "1")]) := by
  constructor
  · decide
  · decide

/-- C2 (amended): the cache key is a deterministic function of the URL path
plus the query parameters in the order they are passed (permuting the
parameters may change the key), and it does not depend on the host. -/
theorem c2_amended_cache_key_host_independent (host1 host2 path : String) (params : Params) :
    cacheKey host1 path params = cacheKey host2 path params := by
  unfold cacheKey prepared_url create_key
  simp only [if_pos (slash_append_ne_empty path)]

end Ausmash

namespace Ausmash

/-! ### Theorems for the client claims -/

/-- Helper: the non-cached branch always performs exactly one network
request, whichever way the rate-limit and status checks go. -/
theorem callApiNet_outbound (cfg : ClientConfig) (now : Nat) (st : SessionState)
    (path : String) (params : Params) :
    ((callApiNet cfg now st path params).2).outbound = st.outbound + 1 := by
  unfold callApiNet
  dsimp only
  repeat' split
  all_goals rfl

/-- C4: (1) a call served from a live (non-expired) disk-cache entry
returns the cached bytes and leaves the three rate-budget counters and the
outbound-request count untouched; (2) two calls with the same path and
parameters — the first fresh and successful, the second within the cache
expiry window — return byte-identical content, cause exactly one outbound
network request between them, and the second call changes no state at
all. -/
theorem c4_cache_hits_free_and_idempotent :
    (∀ (cfg : ClientConfig) (now : Nat) (st : SessionState) (path : String)
        (params : Params) (entry : CacheEntry),
      assocLookup st.funcCache (path, params) = none →
      liveEntry now st.httpCache (cacheKey cfg.host path params) = some entry →
      (callApi cfg now st path params).1 = .ok entry.content ∧
        (callApi cfg now st path params).2.requests_per_second = st.requests_per_second ∧
        (callApi cfg now st path params).2.requests_per_minute = st.requests_per_minute ∧
        (callApi cfg now st path params).2.requests_per_hour = st.requests_per_hour ∧
        (callApi cfg now st path params).2.outbound = st.outbound) ∧
    (∀ (cfg : ClientConfig) (now1 now2 : Nat) (st : SessionState) (path : String)
        (params : Params) (b : Bytes),
      assocLookup st.funcCache (path, params) = none →
      liveEntry now1 st.httpCache (cacheKey cfg.host path params) = none →
      (callApi cfg now1 st path params).1 = .ok b →
      now2 < now1 + cfg.cacheExpiry →
      (callApi cfg now2 (callApi cfg now1 st path params).2 path params).1 = .ok b ∧
        (callApi cfg now2 (callApi cfg now1 st path params).2 path params).2 =
          (callApi cfg now1 st path params).2 ∧
        (callApi cfg now1 st path params).2.outbound = st.outbound + 1) := by
  constructor
  · intro cfg now st path params entry h1 h2
    simp [callApi, h1, h2]
  · intro cfg now1 now2 st path params b h1 h2 h3 _hwin
    simp only [callApi, h1, h2] at h3 ⊢
    cases hr : (callApiNet cfg now1 st path params).1 with
    | error e =>
      rw [hr] at h3
      simp at h3
    | ok c =>
      rw [hr] at h3
      dsimp only at h3 ⊢
      have hcb : c = b := by simpa using h3
      subst hcb
      have hl : assocLookup
          (((path, params), c) :: (callApiNet cfg now1 st path params).2.funcCache)
          (path, params) = some c := by
        simp [assocLookup]
      rw [hl]
      exact ⟨rfl, rfl, callApiNet_outbound cfg now1 st path params⟩

/-- Witness for C4: a session whose disk cache holds a live entry for
`pools` (expiry 100, read at time 10), and a fresh request performed twice
starting from an empty session. -/
theorem c4_witness :
    (assocLookup (SessionState.mk [] [("pools", ⟨[1], 100⟩)] 3 4 5 (some 50) 9).funcCache
        ("pools", none) = none ∧
      liveEntry 10 (SessionState.mk [] [("pools", ⟨[1], 100⟩)] 3 4 5 (some 50) 9).httpCache
        (cacheKey "h" "pools" none) = some ⟨[1], 100⟩ ∧
      (callApi ⟨"h", false, 60, fun _ _ => (200, [7])⟩ 10
            (SessionState.mk [] [("pools", ⟨[1], 100⟩)] 3 4 5 (some 50) 9) "pools" none).1 =
          .ok [1] ∧
      (callApi ⟨"h", false, 60, fun _ _ => (200, [7])⟩ 10
            (SessionState.mk [] [("pools", ⟨[1], 100⟩)] 3 4 5 (some 50) 9) "pools" none).2.outbound = 9) ∧
    ((callApi ⟨"h", false, 60, fun _ _ => (200, [7])⟩ 11
          (callApi ⟨"h", false, 60, fun _ _ => (200, [7])⟩ 10
              (SessionState.mk [] [] 0 0 0 none 0) "pools" none).2 "pools" none).1 = .ok [7] ∧
      (callApi ⟨"h", false, 60, fun _ _ => (200, [7])⟩ 10
          (SessionState.mk [] [] 0 0 0 none 0) "pools" none).2.outbound = 0 + 1) := by
  constructor
  · refine ⟨by decide, by decide, ?_, ?_⟩
    · exact (c4_cache_hits_free_and_idempotent.1 ⟨"h", false, 60, fun _ _ => (200, [7])⟩ 10
        (SessionState.mk [] [("pools", ⟨[1], 100⟩)] 3 4 5 (some 50) 9) "pools" none
        ⟨[1], 100⟩ (by decide) (by decide)).1
    · exact (c4_cache_hits_free_and_idempotent.1 ⟨"h", false, 60, fun _ _ => (200, [7])⟩ 10
        (SessionState.mk [] [("pools", ⟨[1], 100⟩)] 3 4 5 (some 50) 9) "pools" none
        ⟨[1], 100⟩ (by decide) (by decide)).2.2.2.2
  · have h := c4_cache_hits_free_and_idempotent.2 ⟨"h", false, 60, fun _ _ => (200, [7])⟩ 10 11
      (SessionState.mk [] [] 0 0 0 none 0) "pools" none [7] (by decide) (by decide)
      (by decide) (by decide)
    exact ⟨h.1, h.2.2⟩

/-- C7: with the per-second counter one below the ceiling and the second
window not yet elapsed, a non-cached call under the fail-fast policy
(`sleep_on_rate_limit = false`) raises `RateLimitError` carrying the
ceiling 200 and the window name `"second"`; under the sleep policy the same
call raises no error and returns the network response. -/
theorem c7_rate_limit_fail_fast_vs_sleep (cfg : ClientConfig) (now t : Nat)
    (st : SessionState) (path : String) (params : Params)
    (hf : assocLookup st.funcCache (path, params) = none)
    (hl : liveEntry now st.httpCache (cacheKey cfg.host path params) = none)
    (hs : st.requests_per_second = RATE_LIMIT_SECOND - 1)
    (hls : st.last_sent = some t)
    (hw : now - t < 1)
    (hok : (cfg.network path params).1 = 200) :
    (callApi { cfg with sleepOnRateLimit := false } now st path params).1 =
        .error (.rateLimit 200 "second") ∧
      (callApi { cfg with sleepOnRateLimit := true } now st path params).1 =
        .ok (cfg.network path params).2 := by
  have hwin1 : windowElapsed st.last_sent now 1 = false := by
    simp [windowElapsed, hls]
    omega
  have hwin60 : windowElapsed st.last_sent now 60 = false := by
    simp [windowElapsed, hls]
    omega
  have hwin3600 : windowElapsed st.last_sent now 3600 = false := by
    simp [windowElapsed, hls]
    omega
  constructor
  · simp [callApi, hf, hl, callApiNet, hwin1, hs, RATE_LIMIT_SECOND]
  · simp [callApi, hf, hl, callApiNet, hwin1, hwin60, hwin3600, hs, hok,
      RATE_LIMIT_SECOND, RATE_LIMIT_MINUTE, RATE_LIMIT_HOUR]

/-- Witness for C7: counters at (199, 3, 4), last request sent at the same
second as the current call. -/
theorem c7_witness :
    (callApi ⟨"h", false, 60, fun _ _ => (200, [7])⟩ 5
          (SessionState.mk [] [] 199 3 4 (some 5) 0) "pools" none).1 =
        .error (.rateLimit 200 "second") ∧
      (callApi ⟨"h", true, 60, fun _ _ => (200, [7])⟩ 5
          (SessionState.mk [] [] 199 3 4 (some 5) 0) "pools" none).1 = .ok [7] :=
  c7_rate_limit_fail_fast_vs_sleep ⟨"h", false, 60, fun _ _ => (200, [7])⟩ 5 5
    (SessionState.mk [] [] 199 3 4 (some 5) 0) "pools" none
    (by decide) (by decide) (by decide) (by decide) (by decide) (by decide)

end Ausmash

namespace Ausmash

/-! ### Theorems for the lazy-resolution and equality claims -/

/-- C5: for a resource constructed from a fragment (no `is_complete`
marker, not yet resolved) that is missing `name1` and `name2`, where the
resolution target exists and the fetch returns a non-empty object, the
first access to `name1` performs exactly one fetch, and a subsequent access
to `name2` on the resulting instance performs zero fetches and leaves the
instance unchanged. -/
theorem c5_resolution_memoized (baseUrl : String) (fetch : String → Option FieldMap)
    (d : FieldMap) (name1 name2 u : String) (m : FieldMap)
    (h1 : assocLookup d name1 = none)
    (h2 : assocLookup d name2 = none)
    (h3 : (assocLookup d "is_complete").elim false JVal.truthy = false)
    (h4 : resolveTarget baseUrl (mkResource d) = some u)
    (h5 : fetch u = some m)
    (h6 : m ≠ []) :
    (getItem baseUrl fetch (mkResource d) name1).2.2 = 1 ∧
      (getItem baseUrl fetch (getItem baseUrl fetch (mkResource d) name1).2.1 name2).2.2 = 0 ∧
      (getItem baseUrl fetch (getItem baseUrl fetch (mkResource d) name1).2.1 name2).2.1 =
        (getItem baseUrl fetch (mkResource d) name1).2.1 := by
  have hdata : (mkResource d).data = d := rfl
  have hcc : (mkResource d).completeCache = none := rfl
  have hne : m.isEmpty = false := by
    cases m with
    | nil => exact absurd rfl h6
    | cons x xs => rfl
  have hfirst : (getItem baseUrl fetch (mkResource d) name1).2.1 =
      { mkResource d with completeCache := some (fmSet m "is_complete" (.bool true)) } ∧
      (getItem baseUrl fetch (mkResource d) name1).2.2 = 1 := by
    simp only [getItem, hdata, hcc, h1, h3, h4, h5, hne]
    cases hcm : assocLookup (fmSet m "is_complete" (.bool true)) name1 with
    | none => exact ⟨rfl, rfl⟩
    | some v => exact ⟨rfl, rfl⟩
  refine ⟨hfirst.2, ?_, ?_⟩ <;>
  · rw [hfirst.1]
    simp only [getItem, hdata, h2]
    cases hcm2 : assocLookup (fmSet m "is_complete" (.bool true)) name2 with
    | none => rfl
    | some v => rfl

/-- Witness for C5: a fragment with an `APILink`, missing `Foo` and `Bar`;
the fetch returns the full object. -/
theorem c5_witness :
    (assocLookup [("Name", JVal.str "A"), ("APILink", JVal.str "link")] "Foo" = none ∧
      assocLookup [("Name", JVal.str "A"), ("APILink", JVal.str "link")] "Bar" = none ∧
      resolveTarget "players"
          (mkResource [("Name", JVal.str "A"), ("APILink", JVal.str "link")]) = some "link") ∧
    ((getItem "players"
          (fun v => if v = "link" then
            some [("Name", JVal.str "A"), ("Foo", JVal.num 3), ("Bar", JVal.num 4)] else none)
          (mkResource [("Name", JVal.str "A"), ("APILink", JVal.str "link")]) "Foo").2.2 = 1 ∧
      (getItem "players"
          (fun v => if v = "link" then
            some [("Name", JVal.str "A"), ("Foo", JVal.num 3), ("Bar", JVal.num 4)] else none)
          (getItem "players"
            (fun v => if v = "link" then
              some [("Name", JVal.str "A"), ("Foo", JVal.num 3), ("Bar", JVal.num 4)] else none)
            (mkResource [("Name", JVal.str "A"), ("APILink", JVal.str "link")]) "Foo").2.1
          "Bar").2.2 = 0) := by
  refine ⟨⟨by decide, by decide, by decide⟩, ?_⟩
  have h := c5_resolution_memoized "players"
    (fun v => if v = "link" then
      some [("Name", JVal.str "A"), ("Foo", JVal.num 3), ("Bar", JVal.num 4)] else none)
    [("Name", JVal.str "A"), ("APILink", JVal.str "link")] "Foo" "Bar" "link"
    [("Name", JVal.str "A"), ("Foo", JVal.num 3), ("Bar", JVal.num 4)]
    (by decide) (by decide) (by decide) (by decide) (by decide) (by decide)
  exact ⟨h.1, h.2.1⟩

/-- Helper: every class is an instance of itself. -/
theorem isInstanceOf_self (c : RClass) : isInstanceOf c c = true := by
  cases c <;> decide

/-- Helper: the subclass relation is antisymmetric. -/
theorem isInstanceOf_antisymm (c d : RClass) :
    isInstanceOf c d = true → isInstanceOf d c = true → c = d := by
  cases c <;> cases d <;> decide

/-- C10 counterexample: two `Game` instances of the same class with the
same numeric ID 1 but different short names compare unequal under `==`
(`Game.__eq__` compares short names, not IDs), refuting "same type and
same numeric ID implies equal" for the quantified "every Resource
subclass". -/
theorem c10_counterexample :
    pyEq ⟨.game, [("ID", .num 1), ("Short", .str "SSBU")]⟩
        ⟨.game, [("ID", .num 1), ("Short", .str "SSBM")]⟩ = some false ∧
      (PyResource.mk .game [("ID", .num 1), ("Short", .str "SSBU")]).cls =
        (PyResource.mk .game [("ID", .num 1), ("Short", .str "SSBM")]).cls ∧
      assocLookup [("ID", JVal.num 1), ("Short", JVal.str "SSBU")] "ID" = some (.num 1) ∧
      assocLookup [("ID", JVal.num 1), ("Short", JVal.str "SSBM")] "ID" = some (.num 1) := by
  decide

/-- C10 (amended): for instances of the Resource subclasses that keep the
inherited `__eq__`/`__hash__` — every modeled subclass except `Game`; the
unmodeled `CombinedCharacter` also overrides both — and that carry `ID`
fields, `a == b` holds iff the instances are of the same class and their
`ID` values are equal, regardless of all other fields (CPython tries the
proper subclass's reflected `__eq__` first, and `Resource.__eq__` settles
with `False` whenever the classes differ, so cross-class comparisons are
`False` in both directions); and whenever `a == b` holds, the two
instances have equal hashes. -/
theorem c10_amended_eq_same_class_and_id (a b : PyResource) (x y : JVal)
    (hacls : a.cls ≠ .game) (hbcls : b.cls ≠ .game)
    (ha : assocLookup a.data "ID" = some x) (hb : assocLookup b.data "ID" = some y) :
    (pyEq a b = some true ↔ (a.cls = b.cls ∧ x = y)) ∧
      (pyEq a b = some true → resourceHash a = resourceHash b) := by
  have hiff : pyEq a b = some true ↔ (a.cls = b.cls ∧ x = y) := by
    unfold pyEq dunderEq
    by_cases hps : properSubclass b.cls a.cls = true
    · rw [if_pos hps, if_neg hbcls]
      obtain ⟨hne, hsub⟩ : b.cls ≠ a.cls ∧ isInstanceOf b.cls a.cls = true := by
        simpa [properSubclass] using hps
      have hno : isInstanceOf a.cls b.cls = false := by
        cases hcase : isInstanceOf a.cls b.cls with
        | false => rfl
        | true => exact absurd (isInstanceOf_antisymm _ _ hsub hcase) hne
      rw [resourceEq, if_neg (by simp [hno])]
      constructor
      · intro h
        exact absurd (Option.some.inj h) (by simp)
      · rintro ⟨hcls, _⟩
        exact absurd hcls.symm hne
    · rw [if_neg hps, if_neg hacls]
      unfold resourceEq
      by_cases hin : isInstanceOf b.cls a.cls = true
      · rw [if_pos hin, ha, hb]
        have hcls : a.cls = b.cls := by
          rcases Decidable.em (b.cls = a.cls) with h | h
          · exact h.symm
          · exact absurd (by simp [properSubclass, h, hin]) hps
        simp [hcls]
      · rw [if_neg hin]
        have hne : a.cls ≠ b.cls := by
          intro h
          exact hin (h ▸ isInstanceOf_self b.cls)
        constructor
        · intro h
          exact absurd (Option.some.inj h) (by simp)
        · rintro ⟨hcls, _⟩
          exact absurd hcls hne
  refine ⟨hiff, fun he => ?_⟩
  obtain ⟨_, hxy⟩ := hiff.mp he
  subst hxy
  simp [resourceHash, ha, hb]

/-- Witness for C10: a `Tournament` fragment with only an ID against a
complete `Tournament` with the same ID and more fields. -/
theorem c10_witness :
    (RClass.tournament ≠ RClass.game ∧
      assocLookup [("ID", JVal.num 7)] "ID" = some (JVal.num 7) ∧
      assocLookup [("ID", JVal.num 7), ("Name", JVal.str "BC4")] "ID" = some (JVal.num 7)) ∧
    (pyEq ⟨.tournament, [("ID", JVal.num 7)]⟩
        ⟨.tournament, [("ID", JVal.num 7), ("Name", JVal.str "BC4")]⟩ = some true ∧
      resourceHash ⟨.tournament, [("ID", JVal.num 7)]⟩ =
        resourceHash ⟨.tournament, [("ID", JVal.num 7), ("Name", JVal.str "BC4")]⟩) := by
  refine ⟨⟨by decide, by decide, by decide⟩, ?_⟩
  have h := c10_amended_eq_same_class_and_id
    ⟨.tournament, [("ID", JVal.num 7)]⟩
    ⟨.tournament, [("ID", JVal.num 7), ("Name", JVal.str "BC4")]⟩
    (JVal.num 7) (JVal.num 7) (by decide) (by decide) (by decide) (by decide)
  have he := h.1.mpr ⟨rfl, rfl⟩
  exact ⟨he, h.2 he⟩
end Ausmash

namespace Ausmash

/-! ### Theorems for the bracket topology claims -/

/-- C6: in the tournament Pools (90 named entrants) → Top 48 (48 of those
names) → Top 8 (8 of those names), with equal game/type/flags:
`previous_phase(Top 48) = Pools`, `previous_phase(Pools) = None`,
`start_phase(Top 8) = Pools`, and `final_phase(Pools) = Top 8`. -/
theorem c6_three_phase_scenario :
    previous_phase_for_event [poolsEvent, top48Event, top8Event] threePhaseResults
        top48Event = .ok (some poolsEvent) ∧
      previous_phase_for_event [poolsEvent, top48Event, top8Event] threePhaseResults
        poolsEvent = .ok none ∧
      start_phase_for_event [poolsEvent, top48Event, top8Event] threePhaseResults
        top8Event = some poolsEvent ∧
      final_phase_for_event [poolsEvent, top48Event, top8Event] threePhaseResults
        poolsEvent = some top8Event := by
  decide

end Ausmash

namespace Ausmash

/-! ### The successor-search characterization (claim C1) -/

theorem dictInsert_append (acc : List (Event × Nat)) (k : Event) (v : Nat)
    (h : ∀ kv ∈ acc, kv.1.id ≠ k.id) :
    dictInsert acc k v = acc ++ [(k, v)] := by
  induction acc with
  | nil => rfl
  | cons kv rest ih =>
    obtain ⟨k0, v0⟩ := kv
    simp only [dictInsert]
    rw [if_neg (h (k0, v0) (List.mem_cons_self _ _))]
    simp only [List.cons_append, List.cons.injEq, true_and]
    exact ih (fun kv hkv => h kv (List.mem_cons_of_mem _ hkv))

theorem eventIndicesAux_eq (es : List Event) :
    ∀ (acc : List (Event × Nat)) (i : Nat),
    (∀ kv ∈ acc, ∀ e ∈ es, kv.1.id ≠ e.id) →
    (es.map Event.id).Nodup →
    eventIndicesAux acc es i = acc ++ enumWithIndexFrom i es := by
  induction es with
  | nil =>
    intro acc i _ _
    simp [eventIndicesAux, enumWithIndexFrom]
  | cons e rest ih =>
    intro acc i hdisj hnodup
    simp only [eventIndicesAux, enumWithIndexFrom]
    rw [dictInsert_append acc e i (fun kv hkv => hdisj kv hkv e (List.mem_cons_self _ _))]
    rw [ih (acc ++ [(e, i)]) (i + 1) ?_ (List.nodup_cons.mp (by simpa using hnodup)).2]
    · simp
    · intro kv hkv e' he'
      rcases List.mem_append.mp hkv with hmem | hmem
      · exact hdisj kv hmem e' (List.mem_cons_of_mem _ he')
      · have hkve : kv = (e, i) := by simpa using hmem
        subst hkve
        intro hid
        have h1 : e.id ∉ rest.map Event.id := (List.nodup_cons.mp (by simpa using hnodup)).1
        exact h1 (hid ▸ List.mem_map.mpr ⟨e', he', rfl⟩)

theorem mem_enumWithIndexFrom (t : List Event) :
    ∀ (i : Nat) (s : Event) (j : Nat),
    ((s, j) ∈ enumWithIndexFrom i t) ↔ ∃ k, j = i + k ∧ t.get? k = some s := by
  induction t with
  | nil =>
    intro i s j
    simp [enumWithIndexFrom]
  | cons e rest ih =>
    intro i s j
    simp only [enumWithIndexFrom, List.mem_cons, ih (i + 1)]
    constructor
    · rintro (h | ⟨k, rfl, hk⟩)
      · have hs : s = e ∧ j = i := by simpa [Prod.ext_iff] using h
        obtain ⟨rfl, rfl⟩ := hs
        exact ⟨0, by omega, rfl⟩
      · exact ⟨k + 1, by omega, hk⟩
    · rintro ⟨k, rfl, hk⟩
      cases k with
      | zero =>
        left
        have : e = s := by simpa using hk
        subst this
        simp
      | succ k =>
        right
        exact ⟨k, by omega, by simpa using hk⟩

theorem dictGet_enumWithIndexFrom (t : List Event) :
    ∀ (i k : Nat) (e : Event),
    (t.map Event.id).Nodup → t.get? k = some e →
    dictGet (enumWithIndexFrom i t) e = some (i + k) := by
  induction t with
  | nil =>
    intro i k e _ h
    simp at h
  | cons hd rest ih =>
    intro i k e hnodup hget
    cases k with
    | zero =>
      have : hd = e := by simpa using hget
      subst this
      simp [dictGet, enumWithIndexFrom, List.find?]
    | succ k =>
      have hrest : rest.get? k = some e := by simpa using hget
      have hmem : e.id ∈ rest.map Event.id :=
        List.mem_map.mpr ⟨e, List.get?_mem hrest, rfl⟩
      have hne : hd.id ≠ e.id := by
        intro h
        exact (List.nodup_cons.mp (by simpa using hnodup)).1 (h ▸ hmem)
      have hdg := ih (i + 1) k e (List.nodup_cons.mp (by simpa using hnodup)).2 hrest
      simp only [dictGet, enumWithIndexFrom, List.find?] at hdg ⊢
      rw [decide_eq_false hne]
      simpa [Nat.add_assoc, Nat.add_comm 1 k] using hdg

theorem le_snd_of_mem_enumWithIndexFrom (t : List Event) :
    ∀ (i : Nat) (kv : Event × Nat), kv ∈ enumWithIndexFrom i t → i ≤ kv.2 := by
  induction t with
  | nil =>
    intro i kv h
    simp [enumWithIndexFrom] at h
  | cons e rest ih =>
    intro i kv h
    rcases (by simpa [enumWithIndexFrom] using h : kv = (e, i) ∨ kv ∈ enumWithIndexFrom (i + 1) rest) with
      h1 | h1
    · subst h1; exact le_refl i
    · exact Nat.le_of_succ_le (ih (i + 1) kv h1)

theorem pairwise_snd_enumWithIndexFrom (t : List Event) :
    ∀ (i : Nat), (enumWithIndexFrom i t).Pairwise (fun a b => a.2 < b.2) := by
  induction t with
  | nil =>
    intro i
    simp [enumWithIndexFrom]
  | cons e rest ih =>
    intro i
    refine List.pairwise_cons.mpr ⟨?_, ih (i + 1)⟩
    intro kv hkv
    exact Nat.lt_of_lt_of_le (Nat.lt_succ_self i) (le_snd_of_mem_enumWithIndexFrom rest (i + 1) kv hkv)

theorem foldl_min_keep (xs : List (Event × Nat)) :
    ∀ (b : Event × Nat), (∀ x ∈ xs, b.2 < x.2) →
    xs.foldl (fun acc x =>
      match acc with
      | none => some x
      | some c => if x.2 < c.2 then some x else some c) (some b) = some b := by
  induction xs with
  | nil => intro b _; rfl
  | cons x rest ih =>
    intro b hb
    have hx : b.2 < x.2 := hb x (List.mem_cons_self _ _)
    simp only [List.foldl]
    rw [if_neg (by omega)]
    exact ih b (fun y hy => hb y (List.mem_cons_of_mem _ hy))

theorem pyMinBySnd_of_pairwise (l : List (Event × Nat))
    (h : l.Pairwise (fun a b => a.2 < b.2)) :
    pyMinBySnd l = l.head? := by
  cases l with
  | nil => rfl
  | cons b xs =>
    simp only [pyMinBySnd, List.foldl, List.head?]
    exact foldl_min_keep xs b (List.pairwise_cons.mp h).1

theorem head?_filter_eq_find? (p : Event × Nat → Bool) (l : List (Event × Nat)) :
    (l.filter p).head? = l.find? p := by
  induction l with
  | nil => rfl
  | cons x xs ih =>
    by_cases h : p x
    · simp [List.filter_cons, List.find?, h]
    · simp [List.filter_cons, List.find?, h, ih]

theorem find?_enumWithIndexFrom_eq_some (t : List Event) :
    ∀ (i : Nat) (Q : Event × Nat → Bool) (s : Event) (j : Nat),
    ((enumWithIndexFrom i t).find? Q = some (s, j)) ↔
      (∃ k, j = i + k ∧ t.get? k = some s ∧ Q (s, i + k) = true ∧
        ∀ k' s', k' < k → t.get? k' = some s' → Q (s', i + k') = false) := by
  induction t with
  | nil =>
    intro i Q s j
    simp [enumWithIndexFrom]
  | cons e rest ih =>
    intro i Q s j
    simp only [enumWithIndexFrom, List.find?]
    cases hq : Q (e, i) with
    | true =>
      constructor
      · intro h
        have hs : e = s ∧ i = j := by simpa [Prod.ext_iff] using h
        obtain ⟨rfl, rfl⟩ := hs
        refine ⟨0, by omega, rfl, by rw [Nat.add_zero]; exact hq, ?_⟩
        intro k' s' hk' _
        exact absurd hk' (Nat.not_lt_zero k')
      · rintro ⟨k, rfl, hget, hQ, hmin⟩
        cases k with
        | zero =>
          have he : e = s := by simpa using hget
          subst he
          rw [Nat.add_zero]
          rfl
        | succ k =>
          exfalso
          have h0 := hmin 0 e (Nat.succ_pos k) (by simp)
          rw [Nat.add_zero] at h0
          rw [hq] at h0
          exact Bool.noConfusion h0
    | false =>
      rw [ih (i + 1)]
      constructor
      · rintro ⟨k, rfl, hget, hQ, hmin⟩
        refine ⟨k + 1, by omega, by simpa using hget, ?_, ?_⟩
        · rwa [show i + (k + 1) = i + 1 + k by omega]
        · intro k' s' hk' hget'
          cases k' with
          | zero =>
            have he : e = s' := by simpa using hget'
            subst he
            rw [Nat.add_zero]
            exact hq
          | succ k' =>
            have h1 := hmin k' s' (by omega) (by simpa using hget')
            rwa [show i + (k' + 1) = i + 1 + k' by omega]
      · rintro ⟨k, rfl, hget, hQ, hmin⟩
        cases k with
        | zero =>
          exfalso
          have he : e = s := by simpa using hget
          subst he
          rw [Nat.add_zero] at hQ
          rw [hq] at hQ
          exact Bool.noConfusion hQ
        | succ k =>
          refine ⟨k, by omega, by simpa using hget, ?_, ?_⟩
          · rwa [show i + 1 + k = i + (k + 1) by omega]
          · intro k' s' hk' hget'
            have h1 := hmin (k' + 1) s' (by omega) (by simpa using hget')
            rwa [show i + 1 + k' = i + (k' + 1) by omega]

theorem phase_candidate_next_iff (res : Nat → List String) (e : Event) (index : Nat)
    (s : Event) (j : Nat) :
    phase_candidate res e index false (s, j) = true ↔
      (index < j ∧ e.game = s.game ∧ e.etype = s.etype ∧
        e.is_side_bracket = s.is_side_bracket ∧
        e.is_redemption_bracket = s.is_redemption_bracket ∧
        ∀ p ∈ res s.id, p ∈ res e.id) := by
  simp [phase_candidate, all_event_players_are_in_this_event, List.all_eq_true,
    and_assoc]

theorem next_phase_eq_find (t : List Event) (res : Nat → List String) (e : Event) (i : Nat)
    (hnodup : (t.map Event.id).Nodup) (hei : t.get? i = some e)
    (hre : (res e.id).isEmpty = false) :
    next_phase_for_event t res e =
      .ok (((enumWithIndexFrom 0 t).find? (phase_candidate res e i false)).map (·.1)) := by
  unfold next_phase_for_event other_phase_for_event
  have hEI : eventIndices t = enumWithIndexFrom 0 t := by
    have := eventIndicesAux_eq t [] 0 (by simp) hnodup
    simpa [eventIndices] using this
  have hDG : dictGet (enumWithIndexFrom 0 t) e = some i := by
    have := dictGet_enumWithIndexFrom t 0 i e hnodup hei
    simpa using this
  rw [hEI]
  simp only [hDG, hre, Bool.false_eq_true, if_false]
  have hpair : ((enumWithIndexFrom 0 t).filter (phase_candidate res e i false)).Pairwise
      (fun a b => a.2 < b.2) :=
    (pairwise_snd_enumWithIndexFrom t 0).sublist (List.filter_sublist _)
  have hmin : pyMinBySnd ((enumWithIndexFrom 0 t).filter (phase_candidate res e i false)) =
      (enumWithIndexFrom 0 t).find? (phase_candidate res e i false) := by
    rw [pyMinBySnd_of_pairwise _ hpair, head?_filter_eq_find?]
  cases hfe : (enumWithIndexFrom 0 t).find? (phase_candidate res e i false) with
  | none =>
    have : ((enumWithIndexFrom 0 t).filter (phase_candidate res e i false)).head? = none := by
      rw [head?_filter_eq_find?, hfe]
    have hempty : ((enumWithIndexFrom 0 t).filter (phase_candidate res e i false)).isEmpty = true := by
      cases hc : (enumWithIndexFrom 0 t).filter (phase_candidate res e i false) with
      | nil => rfl
      | cons x xs => rw [hc] at this; exact Option.noConfusion this
    simp [hempty]
  | some pair =>
    have hh : ((enumWithIndexFrom 0 t).filter (phase_candidate res e i false)).head? = some pair := by
      rw [head?_filter_eq_find?, hfe]
    have hne : ((enumWithIndexFrom 0 t).filter (phase_candidate res e i false)).isEmpty = false := by
      cases hc : (enumWithIndexFrom 0 t).filter (phase_candidate res e i false) with
      | nil =>
        rw [hc] at hh
        exact Option.noConfusion hh
      | cons x xs => rfl
    simp only [hne]
    rw [if_neg (by simp)]
    rw [hmin, hfe]

theorem next_phase_of_no_results (t : List Event) (res : Nat → List String) (e : Event)
    (i : Nat) (hnodup : (t.map Event.id).Nodup) (hei : t.get? i = some e)
    (hre : res e.id = []) :
    next_phase_for_event t res e = .ok none := by
  unfold next_phase_for_event other_phase_for_event
  have hEI : eventIndices t = enumWithIndexFrom 0 t := by
    have := eventIndicesAux_eq t [] 0 (by simp) hnodup
    simpa [eventIndices] using this
  have hDG : dictGet (enumWithIndexFrom 0 t) e = some i := by
    have := dictGet_enumWithIndexFrom t 0 i e hnodup hei
    simpa using this
  rw [hEI]
  simp [hDG, hre]

/-- C1 (amended): for a tournament with pairwise-distinct event IDs and
`e` at position `i`: when `e` has no recorded results, `None` is returned;
otherwise a candidate `s` (strictly later in declared order, same
game/type/side-bracket/redemption flags) qualifies if and only if every
player with a recorded result in `s` also has a recorded result in `e`,
the qualifying candidate with the smallest index is returned, and `None`
is returned exactly when no candidate qualifies. -/
theorem c1_amended_next_phase_characterization (t : List Event) (res : Nat → List String) (e : Event) (i : Nat)
    (hnodup : (t.map Event.id).Nodup) (hei : t.get? i = some e) :
    (res e.id = [] → next_phase_for_event t res e = .ok none) ∧
    (res e.id ≠ [] →
      (∀ s : Event,
        next_phase_for_event t res e = .ok (some s) ↔
          ∃ j, t.get? j = some s ∧ i < j ∧
            e.game = s.game ∧ e.etype = s.etype ∧
            e.is_side_bracket = s.is_side_bracket ∧
            e.is_redemption_bracket = s.is_redemption_bracket ∧
            (∀ p ∈ res s.id, p ∈ res e.id) ∧
            (∀ j' s', t.get? j' = some s' → i < j' →
              e.game = s'.game → e.etype = s'.etype →
              e.is_side_bracket = s'.is_side_bracket →
              e.is_redemption_bracket = s'.is_redemption_bracket →
              (∀ p ∈ res s'.id, p ∈ res e.id) → j ≤ j')) ∧
      (next_phase_for_event t res e = .ok none ↔
        ∀ j s', t.get? j = some s' → i < j →
          ¬(e.game = s'.game ∧ e.etype = s'.etype ∧
            e.is_side_bracket = s'.is_side_bracket ∧
            e.is_redemption_bracket = s'.is_redemption_bracket ∧
            ∀ p ∈ res s'.id, p ∈ res e.id))) := by
  refine ⟨fun hre => next_phase_of_no_results t res e i hnodup hei hre, fun hre => ?_⟩
  have hre' : (res e.id).isEmpty = false := by
    cases hc : res e.id with
    | nil => exact absurd hc hre
    | cons x xs => rfl
  have hfind := next_phase_eq_find t res e i hnodup hei hre'
  constructor
  · intro s
    rw [hfind]
    constructor
    · intro h
      have hmap : ((enumWithIndexFrom 0 t).find? (phase_candidate res e i false)).map
          (fun x => x.1) = some s := Except.ok.inj h
      obtain ⟨pair, hfe, hs0⟩ := Option.map_eq_some'.mp hmap
      obtain ⟨s0, j0⟩ := pair
      dsimp at hs0
      subst hs0
      rw [find?_enumWithIndexFrom_eq_some] at hfe
      obtain ⟨k, rfl, hget, hQ, hmin⟩ := hfe
      rw [phase_candidate_next_iff] at hQ
      obtain ⟨hij, hg, hty, hsb, hrb, hsub⟩ := hQ
      refine ⟨k, hget, by omega, hg, hty, hsb, hrb, hsub, ?_⟩
      intro j' s' hget' hij' hg' hty' hsb' hrb' hsub'
      by_contra hcon
      have hjk : j' < k := by omega
      have hfalse := hmin j' s' hjk hget'
      have htrue : phase_candidate res e i false (s', 0 + j') = true := by
        rw [phase_candidate_next_iff]
        exact ⟨by omega, hg', hty', hsb', hrb', hsub'⟩
      rw [htrue] at hfalse
      exact Bool.noConfusion hfalse
    · rintro ⟨j, hget, hij, hg, hty, hsb, hrb, hsub, hminimal⟩
      have hfe : (enumWithIndexFrom 0 t).find? (phase_candidate res e i false) = some (s, j) := by
        rw [find?_enumWithIndexFrom_eq_some]
        refine ⟨j, by omega, hget, ?_, ?_⟩
        · rw [phase_candidate_next_iff]
          exact ⟨by omega, hg, hty, hsb, hrb, hsub⟩
        · intro k' s' hk' hget'
          cases hQ' : phase_candidate res e i false (s', 0 + k') with
          | false => rfl
          | true =>
            exfalso
            rw [phase_candidate_next_iff] at hQ'
            obtain ⟨hik', hg', hty', hsb', hrb', hsub'⟩ := hQ'
            have := hminimal k' s' hget' (by omega) hg' hty' hsb' hrb' hsub'
            omega
      rw [hfe]
      rfl
  · rw [hfind]
    constructor
    · intro h
      have hmap : ((enumWithIndexFrom 0 t).find? (phase_candidate res e i false)).map
          (fun x => x.1) = none := Except.ok.inj h
      have hfe := Option.map_eq_none'.mp hmap
      rw [List.find?_eq_none] at hfe
      intro j s' hget hij hq
      obtain ⟨hg, hty, hsb, hrb, hsub⟩ := hq
      have hmem : (s', j) ∈ enumWithIndexFrom 0 t :=
        (mem_enumWithIndexFrom t 0 s' j).mpr ⟨j, by omega, hget⟩
      have := hfe (s', j) hmem
      rw [phase_candidate_next_iff] at this
      exact this ⟨hij, hg, hty, hsb, hrb, hsub⟩
    · intro hall
      have hfe : (enumWithIndexFrom 0 t).find? (phase_candidate res e i false) = none := by
        rw [List.find?_eq_none]
        rintro ⟨s', j⟩ hmem
        obtain ⟨k, rfl, hget⟩ := (mem_enumWithIndexFrom t 0 s' (s', _).2).mp hmem
        rw [phase_candidate_next_iff]
        rintro ⟨hij, hg, hty, hsb, hrb, hsub⟩
        exact hall (0 + k) s' (by simpa using hget) hij ⟨hg, hty, hsb, hrb, hsub⟩
      rw [hfe]
      rfl

/-- C1 counterexample: in a two-event tournament where event A has result
players {A, B} and the later event B (same game/type/flags) has only
player A, the code returns B as the next phase of A even though not every
player of A has a result in B — under the claim's qualification rule
(`R(e) ⊆ R(s)`) no candidate would qualify and `None` would have to be
returned. -/
theorem c1_counterexample :
    next_phase_for_event [eventA, eventB] abResults eventA = .ok (some eventB) ∧
      ¬ (∀ p ∈ abResults eventA.id, p ∈ abResults eventB.id) := by
  decide

/-- Witness for C1 at the two-event tournament: the amended
characterization applied at position 0 yields event B. -/
theorem c1_witness :
    (([eventA, eventB].map Event.id).Nodup ∧
      [eventA, eventB].get? 0 = some eventA ∧ abResults eventA.id ≠ []) ∧
      next_phase_for_event [eventA, eventB] abResults eventA = .ok (some eventB) :=
  ⟨⟨by decide, by decide, by decide⟩,
    (((c1_amended_next_phase_characterization [eventA, eventB] abResults eventA 0
        (by decide) (by decide)).2 (by decide)).1 eventB).mpr
      ⟨1, by decide, by decide, by decide, by decide, by decide, by decide, by decide,
        fun _ _ _ hij _ _ _ _ _ => hij⟩⟩

end Ausmash
